import Mathlib

/-!
Verification development for the VRM-to-Rigify bone-graph transformation
pipeline (`vrm_rigify_for_unity/vrm_rigify.py`).

The pipeline's functions are shallowly embedded: a Blender armature's bone
collection is modelled as an association list from bone names to bone
records, coordinates are rationals, and Python exceptions (KeyError on a
missing collection index, AssertionError, NameError on an unbound local,
ZeroDivisionError) are modelled with `Except`.

Host semantics assumed by the embedding, stated once here:
* names are unique within one armature, so an association list with
  first-match lookup models a bone collection;
* iterating a `bpy_prop_collection` yields every element even when the
  loop body removes the element just yielded (the collection iterator
  advances past the current element before handing it to the body), so a
  remove-inside-the-loop pass is a filter over all bones;
* a Python `dict` is modelled by an association list whose insert
  overwrites an existing key in place and otherwise appends;
* assigning `VertexGroup.name` enforces per-object name uniqueness: when
  the requested name is already used by another group, the host substitutes
  a fresh suffixed name (`.001` style); that resolver is host code and is
  passed in as a function constrained by its defining property of
  returning a name not currently in use.
-/

namespace VrmRigify

/-! ## Association-list dictionary primitives -/

/-- Association list keyed by bone / vertex-group names. -/
abbrev AL (α : Type) : Type := List (String × α)

/-- First-match lookup, modelling `collection[name]` / `dict[key]` access. -/
def lookupAL {α : Type} : AL α → String → Option α
  | [], _ => none
  | p :: rest, k => if p.1 = k then some p.2 else lookupAL rest k

/-- Python `dict` insertion: overwrite the key in place if present, else append. -/
def dinsert {α : Type} (d : AL α) (k : String) (v : α) : AL α :=
  if (lookupAL d k).isSome then
    d.map (fun p => if p.1 = k then (k, v) else p)
  else
    d ++ [(k, v)]

/-- Update the value stored at key `k`, keeping list positions. -/
def updateAL {α : Type} (l : AL α) (k : String) (f : α → α) : AL α :=
  l.map (fun q => if q.1 = k then (k, f q.2) else q)

theorem lookupAL_nil {α : Type} (k : String) : lookupAL ([] : AL α) k = none := rfl

theorem lookupAL_append_of_none {α : Type} {l₁ : AL α} {k : String}
    (h : lookupAL l₁ k = none) (l₂ : AL α) :
    lookupAL (l₁ ++ l₂) k = lookupAL l₂ k := by
  induction l₁ with
  | nil => rfl
  | cons p rest ih =>
    simp only [lookupAL] at h
    by_cases hp : p.1 = k
    · simp [hp] at h
    · simp only [hp, if_false] at h
      simp [lookupAL, hp, ih h]

theorem lookupAL_append_of_some {α : Type} {l₁ : AL α} {k : String} {v : α}
    (h : lookupAL l₁ k = some v) (l₂ : AL α) :
    lookupAL (l₁ ++ l₂) k = some v := by
  induction l₁ with
  | nil => simp [lookupAL] at h
  | cons p rest ih =>
    simp only [lookupAL] at h
    by_cases hp : p.1 = k
    · simp only [hp, if_pos] at h
      simp [lookupAL, hp, h]
    · simp only [hp, if_false] at h
      simp [lookupAL, hp, ih h]

theorem lookupAL_eq_none_of_not_mem {α : Type} {l : AL α} {k : String}
    (h : k ∉ l.map Prod.fst) : lookupAL l k = none := by
  induction l with
  | nil => rfl
  | cons p rest ih =>
    simp only [List.map_cons, List.mem_cons] at h
    push_neg at h
    have hp : ¬ p.1 = k := fun e => h.1 e.symm
    simp [lookupAL, hp, ih h.2]

theorem not_mem_of_lookupAL_eq_none {α : Type} {l : AL α} {k : String}
    (h : lookupAL l k = none) : k ∉ l.map Prod.fst := by
  induction l with
  | nil => simp
  | cons p rest ih =>
    simp only [lookupAL] at h
    by_cases hp : p.1 = k
    · simp [hp] at h
    · simp only [hp, if_false] at h
      have hk : ¬ k = p.1 := fun e => hp e.symm
      simp [List.mem_cons, hk, ih h]

theorem dinsert_of_none {α : Type} {d : AL α} {k : String}
    (h : lookupAL d k = none) (v : α) : dinsert d k v = d ++ [(k, v)] := by
  simp [dinsert, h]

theorem lookupAL_map_overwrite_ne {α : Type} (l : AL α) {k k' : String} (v : α)
    (hk : k ≠ k') :
    lookupAL (l.map (fun p => if p.1 = k then (k, v) else p)) k' = lookupAL l k' := by
  induction l with
  | nil => rfl
  | cons p rest ih =>
    simp only [List.map_cons]
    by_cases hp : p.1 = k
    · simp [lookupAL, hp, hk, ih]
    · simp [lookupAL, hp, ih]

theorem lookupAL_dinsert_self {α : Type} (d : AL α) (k : String) (v : α) :
    lookupAL (dinsert d k v) k = some v := by
  unfold dinsert
  by_cases hs : (lookupAL d k).isSome
  · simp only [hs, if_true]
    induction d with
    | nil => simp [lookupAL] at hs
    | cons p rest ih =>
      by_cases hp : p.1 = k
      · simp [lookupAL, hp]
      · simp only [lookupAL, hp, if_false] at hs
        simp [List.map_cons, hp, lookupAL, ih hs]
  · simp only [hs, Bool.false_eq_true, if_false]
    have hnone : lookupAL d k = none := by
      cases hd : lookupAL d k
      · rfl
      · rw [hd] at hs; simp at hs
    rw [lookupAL_append_of_none hnone]
    simp [lookupAL]

theorem lookupAL_dinsert_ne {α : Type} (d : AL α) {k k' : String} (v : α)
    (hk : k ≠ k') :
    lookupAL (dinsert d k v) k' = lookupAL d k' := by
  unfold dinsert
  by_cases hs : (lookupAL d k).isSome
  · simp only [hs, if_true]
    exact lookupAL_map_overwrite_ne d v hk
  · simp only [hs, Bool.false_eq_true, if_false]
    cases hd : lookupAL d k'
    · rw [lookupAL_append_of_none hd]
      simp [lookupAL, hk]
    · rw [lookupAL_append_of_some hd]

theorem lookupAL_updateAL_self {α : Type} (l : AL α) (k : String) (f : α → α) :
    lookupAL (updateAL l k f) k = (lookupAL l k).map f := by
  induction l with
  | nil => rfl
  | cons p rest ih =>
    simp only [updateAL, List.map_cons] at *
    by_cases hp : p.1 = k
    · simp [lookupAL, hp]
    · simp [lookupAL, hp, ih]

theorem lookupAL_updateAL_ne {α : Type} (l : AL α) {k k' : String} (f : α → α)
    (hk : k ≠ k') :
    lookupAL (updateAL l k f) k' = lookupAL l k' := by
  induction l with
  | nil => rfl
  | cons p rest ih =>
    simp only [updateAL, List.map_cons] at *
    by_cases hp : p.1 = k
    · simp [lookupAL, hp, hk, ih]
    · simp [lookupAL, hp, ih]

/-! ## Geometry primitives -/

/-- A 3-D position (exact rational coordinates stand in for the host's floats;
every operation the claims exercise is assignment or guarded division). -/
structure Vec3 where
  x : ℚ
  y : ℚ
  z : ℚ
deriving DecidableEq, Repr

/-- Row of a 4x4 world matrix. -/
structure Vec4 where
  a : ℚ
  b : ℚ
  c : ℚ
  d : ℚ
deriving DecidableEq, Repr

/-- A 4x4 object world transform (`Object.matrix_world`); only the three
affine rows participate in applying the matrix to a 3-D point. -/
structure Mat4 where
  r0 : Vec4
  r1 : Vec4
  r2 : Vec4
  r3 : Vec4
deriving DecidableEq, Repr

/-- Application `matrix_world @ v` of a 4x4 matrix to a 3-D point
(w taken as 1, mathutils convention). -/
def worldPt (m : Mat4) (v : Vec3) : Vec3 :=
  ⟨m.r0.a * v.x + m.r0.b * v.y + m.r0.c * v.z + m.r0.d,
   m.r1.a * v.x + m.r1.b * v.y + m.r1.c * v.z + m.r1.d,
   m.r2.a * v.x + m.r2.b * v.y + m.r2.c * v.z + m.r2.d⟩

/-- Identity world transform, used by concrete witnesses. -/
def idMat4 : Mat4 :=
  ⟨⟨1,0,0,0⟩, ⟨0,1,0,0⟩, ⟨0,0,1,0⟩, ⟨0,0,0,1⟩⟩

/-- Boolean success test for `Except` results. -/
def exOk {ε α : Type} : Except ε α → Bool
  | .ok _ => true
  | .error _ => false

/-! ## Topology Pruner (`remove_or_log_unmapped_metarig_bones`) -/

/-- Match of the regex `^palm.*$` under Python `re.match` semantics:
the name starts with `palm` and the remainder contains no newline,
except possibly one final newline (which `$` accepts). -/
def palmRestOk : List Char → Bool
  | [] => true
  | c :: rest =>
    if c = '\n' then
      match rest with
      | [] => true
      | _ :: _ => false
    else palmRestOk rest

/-- Does a bone name match the pruner's fixed `^palm.*$` pattern? -/
def palmMatch (s : String) : Bool :=
  match s.data with
  | 'p' :: 'a' :: 'l' :: 'm' :: rest => palmRestOk rest
  | _ => false

/-- Decision table of the pruner's second sweep, mirroring the source's
if/continue chain: a bone is removed iff it is unmapped and its name is one
of the pelvis pair, the breast pair, or `spine.003`. -/
def removeDecision (mapped : List String) (n : String) : Bool :=
  if n ∈ mapped then false
  else if n = "pelvis.L" ∨ n = "pelvis.R" then true
  else if n = "breast.L" ∨ n = "breast.R" then true
  else if ¬ (n = "spine.003") then false
  else true

/-- The Topology Pruner: first sweep removes every `^palm.*$` bone
(collected before deletion), second sweep walks all bones applying the
unmapped-bone decision table. State is the list of bone names, in
collection order. -/
def remove_or_log_unmapped_metarig_bones
    (bones : List String) (bone_mapping : List (String × String)) : List String :=
  (bones.filter (fun n => !(palmMatch n))).filter
    (fun n => !(removeDecision (bone_mapping.map Prod.fst) n))

theorem removeDecision_eq_true_iff (mapped : List String) (n : String) :
    removeDecision mapped n = true ↔
      n ∉ mapped ∧
        n ∈ ["pelvis.L", "pelvis.R", "breast.L", "breast.R", "spine.003"] := by
  unfold removeDecision
  by_cases h1 : n ∈ mapped
  · simp [h1]
  · simp only [h1, if_false]
    by_cases h2 : n = "pelvis.L" ∨ n = "pelvis.R"
    · rcases h2 with h | h <;> subst h <;> simp [h1]
    · simp only [h2, if_false]
      by_cases h3 : n = "breast.L" ∨ n = "breast.R"
      · rcases h3 with h | h <;> subst h <;> simp [h1]
      · simp only [h3, if_false]
        by_cases h4 : n = "spine.003"
        · subst h4; simp [h1]
        · push_neg at h2 h3
          simp [h4, h1, h2.1, h2.2, h3.1, h3.2]

/-- C5. A template bone is deleted by one run of the pruner iff it matches
the palm pattern (regardless of mapping status) or it is unmapped and named
pelvis.L/pelvis.R/breast.L/breast.R/spine.003; all other bones survive. -/
theorem pruner_deletes_iff
    (bones : List String) (bone_mapping : List (String × String)) (n : String)
    (hn : n ∈ bones) :
    n ∉ remove_or_log_unmapped_metarig_bones bones bone_mapping ↔
      (palmMatch n = true ∨
        (n ∉ bone_mapping.map Prod.fst ∧
          n ∈ ["pelvis.L", "pelvis.R", "breast.L", "breast.R", "spine.003"])) := by
  unfold remove_or_log_unmapped_metarig_bones
  simp only [List.mem_filter, Bool.not_eq_true', Bool.not_eq_false]
  constructor
  · intro h
    by_cases hp : palmMatch n = true
    · exact Or.inl hp
    · refine Or.inr ?_
      rw [← removeDecision_eq_true_iff]
      by_cases hr : removeDecision (bone_mapping.map Prod.fst) n = true
      · exact hr
      · exact absurd ⟨⟨hn, by simpa using hp⟩, by simpa using hr⟩ h
  · rintro (hp | hr) h
    · rw [h.1.2] at hp; cases hp
    · rw [← removeDecision_eq_true_iff] at hr
      rw [hr] at h
      cases h.2

/-- Witness for C5 at a concrete skeleton: an unmapped `pelvis.L` is deleted. -/
theorem pruner_deletes_iff_witness :
    ("pelvis.L" ∈ ["palm.01.L", "pelvis.L", "spine.001"]) ∧
      ("pelvis.L" ∉ remove_or_log_unmapped_metarig_bones
          ["palm.01.L", "pelvis.L", "spine.001"] [("spine.001", "Spine")] ↔
        (palmMatch "pelvis.L" = true ∨
          ("pelvis.L" ∉ ([("spine.001", "Spine")].map Prod.fst) ∧
            "pelvis.L" ∈ ["pelvis.L", "pelvis.R", "breast.L", "breast.R", "spine.003"]))) :=
  ⟨by decide,
   pruner_deletes_iff ["palm.01.L", "pelvis.L", "spine.001"] [("spine.001", "Spine")]
     "pelvis.L" (by decide)⟩

/-- C6. Running the pruner twice produces exactly the bone list one run
produces: both sweeps are filters over the whole collection, so a second
run finds nothing left to delete. -/
theorem pruner_idempotent
    (bones : List String) (bone_mapping : List (String × String)) :
    remove_or_log_unmapped_metarig_bones
        (remove_or_log_unmapped_metarig_bones bones bone_mapping) bone_mapping =
      remove_or_log_unmapped_metarig_bones bones bone_mapping := by
  unfold remove_or_log_unmapped_metarig_bones
  have h1 : ∀ (l : List String) (p q : String → Bool),
      ((l.filter q).filter p).filter q = (l.filter q).filter p := by
    intro l p q
    apply List.filter_eq_self.mpr
    intro a ha
    exact (List.mem_filter.mp (List.mem_filter.mp ha).1).2
  rw [h1]
  apply List.filter_eq_self.mpr
  intro a ha
  exact (List.mem_filter.mp (List.mem_filter.mp ha).1).2

/-! ## Name Restoration Map
(`store_original_bone_names`, `update_bone_name_mapping_after_rename`) -/

/-- Record the original bone names before standardization: the source builds
a dict mapping each bone name to itself, in bone-collection order. -/
def store_original_bone_names (bones : List String) : AL String :=
  bones.foldl (fun d b => dinsert d b b) []

/-- Rebuild the name mapping after the external rename pass: pair the i-th
post-standardization bone name with the i-th recorded original name, for
every index that has a recorded original name; a dict keyed by the new
names is returned and no length check is performed. -/
def update_bone_name_mapping_after_rename
    (original_bone_names : AL String) (bones_after : List String) : AL String :=
  bones_after.enum.foldl
    (fun d p =>
      if p.1 < (original_bone_names.map Prod.fst).length then
        dinsert d p.2 ((original_bone_names.map Prod.fst).getD p.1 "")
      else d)
    []

theorem update_mapping_go (keys : List String) :
    ∀ (after : List String) (j : ℕ) (d : AL String),
      after.Nodup → (∀ a ∈ after, lookupAL d a = none) →
      (after.enumFrom j).foldl
          (fun d p =>
            if p.1 < keys.length then dinsert d p.2 (keys.getD p.1 "") else d) d =
        d ++ after.zip (keys.drop j) := by
  intro after
  induction after with
  | nil => intro j d _ _; simp
  | cons a rest ih =>
    intro j d hnd hnone
    have hmem : a ∈ a :: rest := List.mem_cons_self a rest
    have hrest : rest.Nodup := (List.nodup_cons.mp hnd).2
    have hna : a ∉ rest := (List.nodup_cons.mp hnd).1
    simp only [List.enumFrom, List.foldl]
    by_cases hj : j < keys.length
    · rw [if_pos hj, dinsert_of_none (hnone a hmem)]
      have hnone' : ∀ x ∈ rest, lookupAL (d ++ [(a, keys.getD j "")]) x = none := by
        intro x hx
        rw [lookupAL_append_of_none (hnone x (List.mem_cons_of_mem a hx))]
        have : ¬ a = x := fun e => hna (e ▸ hx)
        simp [lookupAL, this]
      rw [ih (j + 1) _ hrest hnone']
      rw [List.drop_eq_getElem_cons hj, List.zip_cons_cons, List.getD_eq_getElem keys "" hj]
      simp
    · rw [if_neg hj]
      rw [ih (j + 1) d hrest (fun x hx => hnone x (List.mem_cons_of_mem a hx))]
      have hle : keys.length ≤ j := Nat.le_of_not_lt hj
      rw [List.drop_eq_nil_of_le hle, List.drop_eq_nil_of_le (Nat.le_succ_of_le hle)]
      simp

theorem update_mapping_eq_zip (orig : AL String) (after : List String)
    (hnd : after.Nodup) :
    update_bone_name_mapping_after_rename orig after =
      after.zip (orig.map Prod.fst) := by
  unfold update_bone_name_mapping_after_rename
  have h := update_mapping_go (orig.map Prod.fst) after 0 [] hnd (fun a _ => rfl)
  simpa [List.enum] using h

theorem store_original_go :
    ∀ (l : List String) (d : AL String),
      l.Nodup → (∀ b ∈ l, lookupAL d b = none) →
      l.foldl (fun d b => dinsert d b b) d = d ++ l.map (fun b => (b, b)) := by
  intro l
  induction l with
  | nil => intro d _ _; simp
  | cons a rest ih =>
    intro d hnd hnone
    have hna : a ∉ rest := (List.nodup_cons.mp hnd).1
    simp only [List.foldl, List.map_cons]
    rw [dinsert_of_none (hnone a (List.mem_cons_self a rest))]
    have hnone' : ∀ x ∈ rest, lookupAL (d ++ [(a, a)]) x = none := by
      intro x hx
      rw [lookupAL_append_of_none (hnone x (List.mem_cons_of_mem a hx))]
      have : ¬ a = x := fun e => hna (e ▸ hx)
      simp [lookupAL, this]
    rw [ih _ (List.nodup_cons.mp hnd).2 hnone']
    simp

theorem store_original_eq (before : List String) (hnd : before.Nodup) :
    store_original_bone_names before = before.map (fun b => (b, b)) := by
  unfold store_original_bone_names
  rw [store_original_go before [] hnd (fun b _ => rfl)]
  simp

/-- C10. Building the restoration map never fails for any combination of
list lengths: with M post-standardization bones and N recorded originals it
silently returns the positional zip of the first min(N, M) names. -/
theorem restoration_map_truncates (orig : AL String) (after : List String)
    (hnd : after.Nodup) :
    update_bone_name_mapping_after_rename orig after =
        after.zip (orig.map Prod.fst) ∧
      (update_bone_name_mapping_after_rename orig after).length =
        min after.length orig.length := by
  refine ⟨update_mapping_eq_zip orig after hnd, ?_⟩
  rw [update_mapping_eq_zip orig after hnd, List.length_zip, List.length_map]

/-- Witness for C10 with three post-standardization bones but only two
recorded originals: the map silently pairs the first two. -/
theorem restoration_map_truncates_witness :
    update_bone_name_mapping_after_rename [("x", "x"), ("y", "y")] ["a", "b", "c"] =
        (["a", "b", "c"].zip ([("x", "x"), ("y", "y")].map Prod.fst)) ∧
      (update_bone_name_mapping_after_rename
          [("x", "x"), ("y", "y")] ["a", "b", "c"]).length =
        min (["a", "b", "c"] : List String).length
          ([("x", "x"), ("y", "y")] : AL String).length :=
  restoration_map_truncates [("x", "x"), ("y", "y")] ["a", "b", "c"] (by decide)

/-- C4. If the skeleton has N (pairwise distinct) bone names both before and
after standardization, the restoration map has exactly N entries and is
injective: the list of original names it stores is duplicate-free. -/
theorem restoration_map_bijective (before after : List String) (n : ℕ)
    (h1 : before.Nodup) (h2 : after.Nodup)
    (h3 : before.length = n) (h4 : after.length = n) :
    (update_bone_name_mapping_after_rename
        (store_original_bone_names before) after).length = n ∧
      ((update_bone_name_mapping_after_rename
          (store_original_bone_names before) after).map Prod.snd).Nodup := by
  have hkeys : (store_original_bone_names before).map Prod.fst = before := by
    rw [store_original_eq before h1, List.map_map]
    exact List.map_id before
  have hz := update_mapping_eq_zip (store_original_bone_names before) after h2
  rw [hz, hkeys]
  constructor
  · rw [List.length_zip, h3, h4]
    exact min_self n
  · rw [List.map_snd_zip after before (by rw [h3, h4])]
    exact h1

/-- Witness for C4 at a concrete two-bone skeleton. -/
theorem restoration_map_bijective_witness :
    (update_bone_name_mapping_after_rename
        (store_original_bone_names ["Hips", "Spine"]) ["J_Hips", "J_Spine"]).length = 2 ∧
      ((update_bone_name_mapping_after_rename
          (store_original_bone_names ["Hips", "Spine"]) ["J_Hips", "J_Spine"]).map
        Prod.snd).Nodup :=
  restoration_map_bijective ["Hips", "Spine"] ["J_Hips", "J_Spine"] 2
    (by decide) (by decide) rfl rfl

/-! ## Role Correspondence Builder (`mapping_metarig_and_vrm_model_bones`) -/

/-- The two reserved bookkeeping keys of the humanoid role enumeration that
the builder skips. -/
def reserved_bone_keys : List String :=
  ["last_bone_names", "initial_automatic_bone_assignment"]

/-- The Role Correspondence Builder. A skeleton's humanoid role map is
modelled as an association list from role key to `Option String`: `none`
when the role attribute or its `node` is missing, `some s` when the node
exists and carries bone name `s` (possibly empty). A pair is emitted when
both skeletons have a node for the role and the source binding is a
non-empty string; the source checks only the SOURCE side for emptiness. -/
def mapping_metarig_and_vrm_model_bones
    (roles : List String) (metarig_human_bones vrm_human_bones : AL (Option String)) :
    List (String × String) :=
  roles.foldl
    (fun acc r =>
      if r ∈ reserved_bone_keys then acc
      else
        match (lookupAL metarig_human_bones r).join, (lookupAL vrm_human_bones r).join with
        | some mName, some vName => if vName ≠ "" then acc ++ [(mName, vName)] else acc
        | some _, none => acc
        | none, _ => acc)
    []

/-- Specification form of the builder's per-role decision, used to state the
amended claim: one pair per non-reserved role that has a node in both maps
and a non-empty source binding, in role-enumeration order. -/
def correspondence_spec_pair
    (metarig_human_bones vrm_human_bones : AL (Option String)) (r : String) :
    Option (String × String) :=
  if r ∈ reserved_bone_keys then none
  else
    match (lookupAL metarig_human_bones r).join, (lookupAL vrm_human_bones r).join with
    | some mName, some vName => if vName ≠ "" then some (mName, vName) else none
    | some _, none => none
    | none, _ => none

/-- Step form shared by the builder characterization: append the produced
pair, if any, to the accumulator. -/
def optAppendStep {α β : Type} (g : α → Option β) (acc : List β) (x : α) : List β :=
  match g x with
  | some b => acc ++ [b]
  | none => acc

theorem correspondence_step_eq
    (metarig_human_bones vrm_human_bones : AL (Option String))
    (acc : List (String × String)) (r : String) :
    (if r ∈ reserved_bone_keys then acc
     else
       match (lookupAL metarig_human_bones r).join, (lookupAL vrm_human_bones r).join with
       | some mName, some vName => if vName ≠ "" then acc ++ [(mName, vName)] else acc
       | some _, none => acc
       | none, _ => acc) =
      optAppendStep (correspondence_spec_pair metarig_human_bones vrm_human_bones) acc r := by
  unfold optAppendStep correspondence_spec_pair
  by_cases hr : r ∈ reserved_bone_keys
  · simp [hr]
  · simp only [hr, if_false]
    cases hm : (lookupAL metarig_human_bones r).join with
    | none => simp
    | some mName =>
      cases hv : (lookupAL vrm_human_bones r).join with
      | none => simp
      | some vName =>
        by_cases h : vName = "" <;> simp [h]

/-- C1 (amended). The correspondence list equals, pair for pair and in
role-enumeration order, the per-role specification: one pair for each
non-reserved role whose node exists in both skeletons and whose SOURCE
binding is non-empty (the template-side binding is not checked for
emptiness), and no pair for any other role. -/
theorem foldl_opt_append {α β : Type} (g : α → Option β) :
    ∀ (l : List α) (acc : List β),
      l.foldl (optAppendStep g) acc = acc ++ l.filterMap g := by
  intro l
  induction l with
  | nil => intro acc; simp
  | cons x rest ih =>
    intro acc
    simp only [List.foldl, List.filterMap_cons]
    cases hg : g x with
    | none => simp [optAppendStep, hg, ih]
    | some b =>
      simp only [optAppendStep, hg]
      rw [ih]
      simp

theorem correspondence_builder_characterization
    (roles : List String) (metarig_human_bones vrm_human_bones : AL (Option String)) :
    mapping_metarig_and_vrm_model_bones roles metarig_human_bones vrm_human_bones =
      roles.filterMap (correspondence_spec_pair metarig_human_bones vrm_human_bones) := by
  have hfold : mapping_metarig_and_vrm_model_bones roles metarig_human_bones vrm_human_bones =
      roles.foldl
        (optAppendStep (correspondence_spec_pair metarig_human_bones vrm_human_bones)) [] := by
    unfold mapping_metarig_and_vrm_model_bones
    congr 1
    funext acc r
    exact correspondence_step_eq metarig_human_bones vrm_human_bones acc r
  rw [hfold]
  simpa using
    foldl_opt_append (correspondence_spec_pair metarig_human_bones vrm_human_bones) roles []

/-- Counterexample to C1 as stated: the template skeleton's binding for
`hips` is present but EMPTY, the source binding is non-empty, and the
builder still emits a pair (with an empty template name) — the claim's
"non-empty in BOTH skeletons" condition is not what the code checks. -/
theorem correspondence_builder_counterexample :
    mapping_metarig_and_vrm_model_bones ["hips"]
        [("hips", some "")] [("hips", some "Hips")] = [("", "Hips")] := by
  decide

/-! ## Geometric Aligner (`position_metarig_bones_to_vrm_model`) -/

/-- Template (metarig) edit bone: joint positions and the selection flag
the aligner sets. -/
structure MetaBone where
  head : Vec3
  tail : Vec3
  select : Bool := false
deriving DecidableEq, Repr

/-- Source (VRM) bone as read by the pipeline: armature-local joint
positions and the parent reference. -/
structure VrmBone where
  headLocal : Vec3
  tailLocal : Vec3
  parentName : Option String := none
deriving DecidableEq, Repr

/-- Template armature object state. -/
structure MetarigState where
  matrixWorld : Mat4
  bones : AL MetaBone
deriving DecidableEq, Repr

/-- Source armature object state. -/
structure VrmState where
  matrixWorld : Mat4
  bones : AL VrmBone
deriving DecidableEq, Repr

/-- KeyError raised by `edit_bones[name]` / `bones[name]` on a missing name. -/
inductive PosError : Type
  | missingMetarigBone (name : String)
  | missingVrmBone (name : String)
deriving DecidableEq, Repr

/-- One iteration of the aligner's loop: look both bones up (KeyError when
absent), then select the template bone and copy head/tail from the source
bone's local positions. -/
def position_go (vrm : VrmState) :
    AL MetaBone → List (String × String) → Except PosError (AL MetaBone)
  | bones, [] => .ok bones
  | bones, p :: rest =>
    match lookupAL bones p.1 with
    | none => .error (.missingMetarigBone p.1)
    | some _ =>
      match lookupAL vrm.bones p.2 with
      | none => .error (.missingVrmBone p.2)
      | some vb =>
        position_go vrm
          (updateAL bones p.1
            (fun mb => { mb with select := true, head := vb.headLocal, tail := vb.tailLocal }))
          rest

/-- The Geometric Aligner: set the template's world transform to the
source's, then reposition every template bone of the correspondence list. -/
def position_metarig_bones_to_vrm_model
    (metarig : MetarigState) (vrm : VrmState) (bone_mapping : List (String × String)) :
    Except PosError MetarigState :=
  match position_go vrm metarig.bones bone_mapping with
  | .error e => .error e
  | .ok bs => .ok { matrixWorld := vrm.matrixWorld, bones := bs }

theorem position_go_ok (vrm : VrmState) :
    ∀ (pairs : List (String × String)) (bones : AL MetaBone),
      (pairs.map Prod.fst).Nodup →
      (∀ mv ∈ pairs,
        (lookupAL bones mv.1).isSome ∧ (lookupAL vrm.bones mv.2).isSome) →
      ∃ bs, position_go vrm bones pairs = .ok bs ∧
        (∀ mv ∈ pairs, ∃ vb, lookupAL vrm.bones mv.2 = some vb ∧
          lookupAL bs mv.1 = some ⟨vb.headLocal, vb.tailLocal, true⟩) ∧
        (∀ n, n ∉ pairs.map Prod.fst → lookupAL bs n = lookupAL bones n) := by
  intro pairs
  induction pairs with
  | nil =>
    intro bones _ _
    exact ⟨bones, rfl, by simp, fun n _ => rfl⟩
  | cons p rest ih =>
    intro bones hnd hpres
    obtain ⟨hm, hv⟩ := hpres p (List.mem_cons_self p rest)
    obtain ⟨mb, hmb⟩ := Option.isSome_iff_exists.mp hm
    obtain ⟨vb, hvb⟩ := Option.isSome_iff_exists.mp hv
    have hnd' : (rest.map Prod.fst).Nodup := (List.nodup_cons.mp (by simpa using hnd)).2
    have hp1 : p.1 ∉ rest.map Prod.fst := (List.nodup_cons.mp (by simpa using hnd)).1
    set bones₁ :=
      updateAL bones p.1
        (fun mb => { mb with select := true, head := vb.headLocal, tail := vb.tailLocal })
      with hbones₁
    have hpres' : ∀ mv ∈ rest,
        (lookupAL bones₁ mv.1).isSome ∧ (lookupAL vrm.bones mv.2).isSome := by
      intro mv hmv
      refine ⟨?_, (hpres mv (List.mem_cons_of_mem p hmv)).2⟩
      by_cases he : p.1 = mv.1
      · rw [hbones₁, he, lookupAL_updateAL_self]
        rw [← he, hmb]
        simp
      · rw [hbones₁, lookupAL_updateAL_ne bones _ he]
        exact (hpres mv (List.mem_cons_of_mem p hmv)).1
    obtain ⟨bs, hrun, hset, hkeep⟩ := ih bones₁ hnd' hpres'
    refine ⟨bs, ?_, ?_, ?_⟩
    · simp only [position_go, hmb, hvb]
      exact hrun
    · intro mv hmv
      rcases List.mem_cons.mp hmv with hmv | hmv
      · refine ⟨vb, ?_, ?_⟩
        · rw [hmv]
          exact hvb
        · rw [hmv, hkeep p.1 hp1, hbones₁, lookupAL_updateAL_self, hmb]
          rfl
      · exact hset mv hmv
    · intro n hn
      have hn1 : n ∉ rest.map Prod.fst := fun h => hn (by simp [h])
      have hne : p.1 ≠ n := fun e => hn (by simp [e])
      rw [hkeep n hn1, hbones₁, lookupAL_updateAL_ne bones _ hne]

/-- C7. When every name of the correspondence list resolves (and template
names are listed once), the aligner succeeds; afterwards the template's
world transform equals the source's, every listed template bone carries
exactly the corresponding source bone's local head/tail (and is selected),
and every unlisted template bone is unchanged. -/
theorem aligner_effect
    (metarig : MetarigState) (vrm : VrmState) (bone_mapping : List (String × String))
    (hnd : (bone_mapping.map Prod.fst).Nodup)
    (hpres : ∀ mv ∈ bone_mapping,
      (lookupAL metarig.bones mv.1).isSome ∧ (lookupAL vrm.bones mv.2).isSome) :
    ∃ s, position_metarig_bones_to_vrm_model metarig vrm bone_mapping = .ok s ∧
      s.matrixWorld = vrm.matrixWorld ∧
      (∀ mv ∈ bone_mapping, ∃ vb, lookupAL vrm.bones mv.2 = some vb ∧
        lookupAL s.bones mv.1 = some ⟨vb.headLocal, vb.tailLocal, true⟩) ∧
      (∀ n, n ∉ bone_mapping.map Prod.fst →
        lookupAL s.bones n = lookupAL metarig.bones n) := by
  obtain ⟨bs, hrun, hset, hkeep⟩ := position_go_ok vrm bone_mapping metarig.bones hnd hpres
  refine ⟨{ matrixWorld := vrm.matrixWorld, bones := bs }, ?_, rfl, hset, hkeep⟩
  unfold position_metarig_bones_to_vrm_model
  rw [hrun]

/-- Witness for C7 on a one-pair correspondence: `spine` takes the local
head/tail of the source bone `Spine`, and the unlisted `hand.L` is kept. -/
theorem aligner_effect_witness :
    ∃ s,
      position_metarig_bones_to_vrm_model
          ⟨idMat4, [("spine", ⟨⟨0,0,0⟩, ⟨0,0,1⟩, false⟩), ("hand.L", ⟨⟨1,0,0⟩, ⟨1,1,0⟩, false⟩)]⟩
          ⟨⟨⟨2,0,0,0⟩, ⟨0,2,0,0⟩, ⟨0,0,2,0⟩, ⟨0,0,0,1⟩⟩,
            [("Spine", ⟨⟨0,0,3⟩, ⟨0,0,4⟩, none⟩)]⟩
          [("spine", "Spine")] = .ok s ∧
      s.matrixWorld = ⟨⟨2,0,0,0⟩, ⟨0,2,0,0⟩, ⟨0,0,2,0⟩, ⟨0,0,0,1⟩⟩ ∧
      (∀ mv ∈ [("spine", "Spine")],
        ∃ vb, lookupAL [("Spine", (⟨⟨0,0,3⟩, ⟨0,0,4⟩, none⟩ : VrmBone))] mv.2 = some vb ∧
          lookupAL s.bones mv.1 = some ⟨vb.headLocal, vb.tailLocal, true⟩) ∧
      (∀ n, n ∉ [("spine", "Spine")].map Prod.fst →
        lookupAL s.bones n =
          lookupAL [("spine", (⟨⟨0,0,0⟩, ⟨0,0,1⟩, false⟩ : MetaBone)),
            ("hand.L", ⟨⟨1,0,0⟩, ⟨1,1,0⟩, false⟩)] n) :=
  aligner_effect
    ⟨idMat4, [("spine", ⟨⟨0,0,0⟩, ⟨0,0,1⟩, false⟩), ("hand.L", ⟨⟨1,0,0⟩, ⟨1,1,0⟩, false⟩)]⟩
    ⟨⟨⟨2,0,0,0⟩, ⟨0,2,0,0⟩, ⟨0,0,2,0⟩, ⟨0,0,0,1⟩⟩, [("Spine", ⟨⟨0,0,3⟩, ⟨0,0,4⟩, none⟩)]⟩
    [("spine", "Spine")] (by decide) (by decide)

/-! ## Generated-rig bone records, shared by the post-generation rewriter -/

/-- A bone of the generated Rigify rig: joint positions, parent reference,
deform flag, bone-collection memberships (Blender 4+) and the legacy layer
bitmask (Blender 3). -/
structure RigBone where
  head : Vec3 := ⟨0, 0, 0⟩
  tail : Vec3 := ⟨0, 0, 0⟩
  parent : Option String := none
  useDeform : Bool := true
  collections : List String := []
  layers : List Bool := []
deriving DecidableEq, Repr

/-- Effective target name of a source bone: restoration-mapped when the
mapping dict is truthy and has the name as key, else the name itself
(`bone_name_mapping.get(name, name) if bone_name_mapping else name`). -/
def effective_name (bone_name_mapping : Option (AL String)) (n : String) : String :=
  match bone_name_mapping with
  | none => n
  | some l =>
    match lookupAL l n with
    | some orig => orig
    | none => n

/-! ## Unmapped-bone grafting (`attach_unmapped_vrm_model_bones_to_rig`) -/

/-- One iteration of the grafting loop over the source skeleton's bones:
skip when the effective name already exists in the rig, when the source
bone has no parent, or when the parent's effective name is not in the rig;
otherwise create a new rig bone with the source's local head/tail, parent
it to the found rig bone, and copy the parent's layers (host version <= 3)
or collection memberships (host version >= 4). -/
def attach_step (blender_major : ℕ) (bone_name_mapping : Option (AL String))
    (rig : AL RigBone) (vb : String × VrmBone) : AL RigBone :=
  let origName := effective_name bone_name_mapping vb.1
  if (lookupAL rig origName).isSome then rig
  else
    match vb.2.parentName with
    | none => rig
    | some pn =>
      let pOrig := effective_name bone_name_mapping pn
      match lookupAL rig pOrig with
      | none => rig
      | some pB =>
        rig ++ [(origName,
          { head := vb.2.headLocal, tail := vb.2.tailLocal, parent := some pOrig,
            useDeform := true,
            collections := if blender_major ≤ 3 then [] else pB.collections,
            layers := if blender_major ≤ 3 then pB.layers else [] })]

/-- The grafting pass: fold the step over the source skeleton's bones in
collection order. -/
def attach_unmapped_vrm_model_bones_to_rig (blender_major : ℕ)
    (rig : AL RigBone) (vrm_bones : List (String × VrmBone))
    (bone_name_mapping : Option (AL String)) : AL RigBone :=
  vrm_bones.foldl (attach_step blender_major bone_name_mapping) rig

theorem attach_step_lookup_some (blender_major : ℕ)
    (bone_name_mapping : Option (AL String)) (rig : AL RigBone)
    (vb : String × VrmBone) {n : String} {b : RigBone}
    (h : lookupAL rig n = some b) :
    lookupAL (attach_step blender_major bone_name_mapping rig vb) n = some b := by
  unfold attach_step
  by_cases hs : (lookupAL rig (effective_name bone_name_mapping vb.1)).isSome
  · simp [hs, h]
  · simp only [hs, Bool.false_eq_true, if_false]
    split
    · exact h
    · split
      · exact h
      · exact lookupAL_append_of_some h _

theorem attach_preserves (blender_major : ℕ)
    (bone_name_mapping : Option (AL String)) :
    ∀ (vbs : List (String × VrmBone)) (rig : AL RigBone) {n : String} {b : RigBone},
      lookupAL rig n = some b →
      lookupAL (attach_unmapped_vrm_model_bones_to_rig blender_major rig vbs
        bone_name_mapping) n = some b := by
  intro vbs
  induction vbs with
  | nil => intro rig n b h; exact h
  | cons vb rest ih =>
    intro rig n b h
    exact ih _ (attach_step_lookup_some blender_major bone_name_mapping rig vb h)

/-- C8. Every bone the grafting pass creates (absent before, present after)
was created from some source bone: it carries exactly that source bone's
local head and tail (no transformation), its name is the source bone's
effective (restoration-mapped) name, and it is parented to the rig bone
named by the source parent's effective name — a name present in the final
rig. -/
theorem grafting_preserves_geometry (blender_major : ℕ)
    (bone_name_mapping : Option (AL String)) :
    ∀ (vbs : List (String × VrmBone)) (rig : AL RigBone) (n : String) (b : RigBone),
      lookupAL rig n = none →
      lookupAL (attach_unmapped_vrm_model_bones_to_rig blender_major rig vbs
        bone_name_mapping) n = some b →
      ∃ p ∈ vbs, effective_name bone_name_mapping p.1 = n ∧
        b.head = p.2.headLocal ∧ b.tail = p.2.tailLocal ∧
        ∃ pn, p.2.parentName = some pn ∧
          b.parent = some (effective_name bone_name_mapping pn) ∧
          (lookupAL (attach_unmapped_vrm_model_bones_to_rig blender_major rig vbs
            bone_name_mapping) (effective_name bone_name_mapping pn)).isSome := by
  intro vbs
  induction vbs with
  | nil =>
    intro rig n b h0 h1
    rw [show attach_unmapped_vrm_model_bones_to_rig blender_major rig [] bone_name_mapping
        = rig from rfl] at h1
    rw [h0] at h1
    cases h1
  | cons vb rest ih =>
    intro rig n b h0 h1
    have hfold : attach_unmapped_vrm_model_bones_to_rig blender_major rig (vb :: rest)
        bone_name_mapping =
        attach_unmapped_vrm_model_bones_to_rig blender_major
          (attach_step blender_major bone_name_mapping rig vb) rest bone_name_mapping := rfl
    by_cases hstep : attach_step blender_major bone_name_mapping rig vb = rig
    · rw [hfold, hstep] at h1
      obtain ⟨p, hp, hrest⟩ := ih rig n b h0 h1
      exact ⟨p, List.mem_cons_of_mem vb hp, by
        rw [hfold, hstep]
        exact hrest⟩
    · unfold attach_step at hstep
      by_cases hs : (lookupAL rig (effective_name bone_name_mapping vb.1)).isSome
      · simp [hs] at hstep
      · simp only [hs, Bool.false_eq_true, if_false] at hstep
        cases hpn : vb.2.parentName with
        | none => simp [hpn] at hstep
        | some pn =>
          simp only [hpn] at hstep
          cases hpb : lookupAL rig (effective_name bone_name_mapping pn) with
          | none => simp [hpb] at hstep
          | some pB =>
            simp only [hpb] at hstep
            set newB : RigBone :=
              { head := vb.2.headLocal, tail := vb.2.tailLocal,
                parent := some (effective_name bone_name_mapping pn),
                useDeform := true,
                collections := if blender_major ≤ 3 then [] else pB.collections,
                layers := if blender_major ≤ 3 then pB.layers else [] } with hnewB
            have hrig₁ : attach_step blender_major bone_name_mapping rig vb =
                rig ++ [(effective_name bone_name_mapping vb.1, newB)] := by
              unfold attach_step
              simp only [hs, Bool.false_eq_true, if_false, hpn, hpb]
            by_cases hn : effective_name bone_name_mapping vb.1 = n
            · refine ⟨vb, List.mem_cons_self vb rest, hn, ?_⟩
              have hlook₁ : lookupAL (attach_step blender_major bone_name_mapping rig vb) n =
                  some newB := by
                rw [hrig₁, lookupAL_append_of_none (hn ▸ h0)]
                simp [lookupAL, hn]
              have hfinal : lookupAL (attach_unmapped_vrm_model_bones_to_rig blender_major rig
                  (vb :: rest) bone_name_mapping) n = some newB := by
                rw [hfold]
                exact attach_preserves blender_major bone_name_mapping rest _ hlook₁
              have hb : b = newB := by
                rw [h1] at hfinal
                exact Option.some.inj hfinal
              subst hb
              refine ⟨rfl, rfl, pn, hpn, rfl, ?_⟩
              have hpfinal : lookupAL (attach_unmapped_vrm_model_bones_to_rig blender_major rig
                  (vb :: rest) bone_name_mapping) (effective_name bone_name_mapping pn) =
                  some pB := by
                rw [hfold]
                refine attach_preserves blender_major bone_name_mapping rest _ ?_
                rw [hrig₁]
                exact lookupAL_append_of_some hpb _
              rw [hpfinal]
              rfl
            · have h0' : lookupAL (attach_step blender_major bone_name_mapping rig vb) n =
                  none := by
                rw [hrig₁, lookupAL_append_of_none h0]
                simp [lookupAL, hn]
              rw [hfold] at h1
              obtain ⟨p, hp, hrest⟩ := ih _ n b h0' h1
              exact ⟨p, List.mem_cons_of_mem vb hp, by
                rw [hfold]
                exact hrest⟩

/-- Witness for C8, the spec's scenario 8: source bone `Tail` has no role
mapping, its parent `Spine` is restoration-mapped into the rig; `Tail` is
grafted under `Spine` with identical head/tail. -/
theorem grafting_preserves_geometry_witness :
    ∃ p ∈ [("Tail", (⟨⟨1,2,3⟩, ⟨4,5,6⟩, some "spine_std"⟩ : VrmBone))],
      effective_name (some [("spine_std", "Spine")]) p.1 = "Tail" ∧
        (⟨⟨1,2,3⟩, ⟨4,5,6⟩, some "Spine", true, ["DEF"], []⟩ : RigBone).head = p.2.headLocal ∧
        (⟨⟨1,2,3⟩, ⟨4,5,6⟩, some "Spine", true, ["DEF"], []⟩ : RigBone).tail = p.2.tailLocal ∧
        ∃ pn, p.2.parentName = some pn ∧
          (⟨⟨1,2,3⟩, ⟨4,5,6⟩, some "Spine", true, ["DEF"], []⟩ : RigBone).parent =
            some (effective_name (some [("spine_std", "Spine")]) pn) ∧
          (lookupAL (attach_unmapped_vrm_model_bones_to_rig 4
              [("Spine", ⟨⟨0,0,0⟩, ⟨0,0,1⟩, none, true, ["DEF"], []⟩)]
              [("Tail", ⟨⟨1,2,3⟩, ⟨4,5,6⟩, some "spine_std"⟩)]
              (some [("spine_std", "Spine")]))
            (effective_name (some [("spine_std", "Spine")]) pn)).isSome :=
  grafting_preserves_geometry 4 (some [("spine_std", "Spine")])
    [("Tail", ⟨⟨1,2,3⟩, ⟨4,5,6⟩, some "spine_std"⟩)]
    [("Spine", ⟨⟨0,0,0⟩, ⟨0,0,1⟩, none, true, ["DEF"], []⟩)]
    "Tail" ⟨⟨1,2,3⟩, ⟨4,5,6⟩, some "Spine", true, ["DEF"], []⟩
    (by decide) (by decide)

/-! ## Deformation rename
(`rename_rig_bones_to_match_vrm_model_vertex_groups`) -/

/-- Errors of the rename step: Python KeyError on `edit_bones[...]` with a
missing name, and the `assert rig_bone.use_deform` AssertionError. -/
inductive RenameError : Type
  | missingBone (name : String)
  | deformFlagOff (name : String)
deriving DecidableEq, Repr

/-- Name of the generated-rig bone a correspondence pair addresses:
`ORG-` prefix for the two eye roles, `DEF-` prefix otherwise. -/
def deformation_rename_target (metarig_bone_name : String) : String :=
  if metarig_bone_name = "eye.L" ∨ metarig_bone_name = "eye.R" then
    "ORG-" ++ metarig_bone_name
  else
    "DEF-" ++ metarig_bone_name

/-- Final name given to the addressed bone: the restoration-mapped original
if the mapping dict is truthy and has the source name as a key, else the
source name itself. -/
def final_target_name (bone_name_mapping : Option (AL String)) (vrm_bone_name : String) :
    String :=
  match bone_name_mapping with
  | none => vrm_bone_name
  | some l =>
    match lookupAL l vrm_bone_name with
    | some orig => orig
    | none => vrm_bone_name

/-- Rename the entry stored under key `k`, keeping its list position. -/
def renameEntry (rig : AL RigBone) (k newName : String) (newBone : RigBone) : AL RigBone :=
  rig.map (fun q => if q.1 = k then (newName, newBone) else q)

/-- The rename loop over the correspondence pairs: eye roles address the
`ORG-` bone (deform flag forced on), every other role addresses the `DEF-`
bone, whose deform flag is asserted; a missing target raises KeyError. -/
def rename_go (bone_name_mapping : Option (AL String)) :
    AL RigBone → List (String × String) → Except RenameError (AL RigBone)
  | rig, [] => .ok rig
  | rig, (mName, vName) :: rest =>
    if mName = "eye.L" ∨ mName = "eye.R" then
      match lookupAL rig ("ORG-" ++ mName) with
      | none => .error (.missingBone ("ORG-" ++ mName))
      | some b =>
        rename_go bone_name_mapping
          (renameEntry rig ("ORG-" ++ mName) (final_target_name bone_name_mapping vName)
            { b with useDeform := true })
          rest
    else
      match lookupAL rig ("DEF-" ++ mName) with
      | none => .error (.missingBone ("DEF-" ++ mName))
      | some b =>
        if b.useDeform then
          rename_go bone_name_mapping
            (renameEntry rig ("DEF-" ++ mName) (final_target_name bone_name_mapping vName) b)
            rest
        else .error (.deformFlagOff ("DEF-" ++ mName))

/-- After the pair loop, the first bone literally named `root` is renamed
to `Root` (the loop breaks after the first match). -/
def renameFirstRoot : AL RigBone → AL RigBone
  | [] => []
  | p :: rest => if p.1 = "root" then ("Root", p.2) :: rest else p :: renameFirstRoot rest

/-- The deformation-rename step of the post-generation rewriter. -/
def rename_rig_bones_to_match_vrm_model_vertex_groups
    (rig : AL RigBone) (bone_mapping : List (String × String))
    (bone_name_mapping : Option (AL String)) : Except RenameError (AL RigBone) :=
  match rename_go bone_name_mapping rig bone_mapping with
  | .error e => .error e
  | .ok r => .ok (renameFirstRoot r)

/-! ## Eye-control derivation (`modify_rigify_rig_eyes_control_bones`) -/

/-- Errors of the eye step: NameError from using a local variable that was
never bound (reference bone absent), and ZeroDivisionError from the
unguarded `scale_ratio` division. -/
inductive EyeError : Type
  | unboundLocal
  | zeroDivision
deriving DecidableEq, Repr

/-- Slope of the master-eye reference segment in the x/y plane; zero when
the horizontal delta is zero (guarded division). -/
def eye_x_slope (mHead mTail : Vec3) : ℚ :=
  if mTail.x - mHead.x ≠ 0 then (mTail.y - mHead.y) / (mTail.x - mHead.x) else 0

/-- The derived x position of the eye control: extrapolated along the
reference slope when it is non-zero, otherwise the reference head's own
x coordinate unchanged. -/
def eye_x_position (mHead mTail eHead : Vec3) : ℚ :=
  let xa := eye_x_slope mHead mTail
  let xb := mHead.y - xa * mHead.x
  if xa ≠ 0 then (eHead.y - xb) / xa else mHead.x

/-- Slope of the master-eye reference segment in the z/y plane. -/
def eye_z_slope (mHead mTail : Vec3) : ℚ :=
  if mTail.z - mHead.z ≠ 0 then (mTail.y - mHead.y) / (mTail.z - mHead.z) else 0

/-- Assigning `EditBone.length` moves the tail along the bone axis; the
host computes the current length (a Euclidean norm, supplied here as
`lenFn`). A zero current length leaves the bone unchanged. -/
def set_bone_length (lenFn : Vec3 → Vec3 → ℚ) (b : RigBone) (target : ℚ) : RigBone :=
  let cur := lenFn b.head b.tail
  if cur = 0 then b
  else
    { b with tail := ⟨b.head.x + (b.tail.x - b.head.x) * (target / cur),
                      b.head.y + (b.tail.y - b.head.y) * (target / cur),
                      b.head.z + (b.tail.z - b.head.z) * (target / cur)⟩ }

/-- Position updates applied to `eye.L`. -/
def set_eye_left (b : RigBone) (xPos zPos eLen : ℚ) : RigBone :=
  { b with head := ⟨xPos, b.head.y, zPos⟩, tail := ⟨xPos, b.tail.y, zPos + eLen⟩ }

/-- Position updates applied to `eye.R` (mirrored on x). -/
def set_eye_right (b : RigBone) (xPos zPos eLen : ℚ) : RigBone :=
  { b with head := ⟨-xPos, b.head.y, zPos⟩, tail := ⟨-xPos, b.tail.y, zPos + eLen⟩ }

/-- Updates applied to the `eyes` master control: z repositioning followed
by the proportional length rescale with the fixed 1.35 multiplier. -/
def adjust_eyes_master (lenFn : Vec3 → Vec3 → ℚ) (b : RigBone)
    (zPos eLen scaleRatio : ℚ) : RigBone :=
  let b1 := { b with head := ⟨b.head.x, b.head.y, zPos⟩,
                     tail := ⟨b.tail.x, b.tail.y, zPos + eLen⟩ }
  set_bone_length lenFn b1 (lenFn b1.head b1.tail * scaleRatio * (27 / 20))

/-- Update the first entry with key `k` only (the source loop breaks after
the first match). -/
def updateFirstAL {α : Type} : AL α → String → (α → α) → AL α
  | [], _, _ => []
  | p :: rest, k, f =>
    if p.1 = k then (p.1, f p.2) :: rest else p :: updateFirstAL rest k f

/-- The eye-control step: read the world-space reference points of
`master_eye.L` and `eye.L` (locals left unbound when a bone is absent),
derive x/z positions with guarded slopes, compute the unguarded
`scale_ratio` division, then update `eye.L`, `eye.R` and (only for a
non-degenerate x slope) the first `eyes` bone. -/
def modify_rigify_rig_eyes_control_bones (lenFn : Vec3 → Vec3 → ℚ) (mw : Mat4)
    (rig : AL RigBone) : Except EyeError (AL RigBone) := do
  let mB? := lookupAL rig "master_eye.L"
  let eB? := lookupAL rig "eye.L"
  let mH? := mB?.map (fun b => worldPt mw b.head)
  let mT? := mB?.map (fun b => worldPt mw b.tail)
  let eH? := eB?.map (fun b => worldPt mw b.head)
  let eLen? := eB?.map (fun b => lenFn b.head b.tail)
  let some mH := mH? | throw EyeError.unboundLocal
  let some mT := mT? | throw EyeError.unboundLocal
  let xa := eye_x_slope mH mT
  let xPos ←
    if xa ≠ 0 then
      match eH? with
      | none => throw EyeError.unboundLocal
      | some eH => pure (eye_x_position mH mT eH)
    else pure mH.x
  let za := eye_z_slope mH mT
  let zb := mH.y - za * mH.z
  let zPos ←
    if za ≠ 0 then
      match eH? with
      | none => throw EyeError.unboundLocal
      | some eH => pure ((eH.y - zb) / za)
    else pure mH.z
  let some eH := eH? | throw EyeError.unboundLocal
  let some eLen := eLen? | throw EyeError.unboundLocal
  if eH.x = 0 then throw EyeError.zeroDivision else pure ()
  let scaleRatio := (xPos - eH.x) / eH.x
  let rig1 := rig.map (fun p =>
    if p.1 = "eye.L" then (p.1, set_eye_left p.2 xPos zPos eLen)
    else if p.1 = "eye.R" then (p.1, set_eye_right p.2 xPos zPos eLen)
    else p)
  if xa ≠ 0 then
    pure (updateFirstAL rig1 "eyes"
      (fun b => adjust_eyes_master lenFn b zPos eLen scaleRatio))
  else
    pure rig1

/-- Counterexample to C2 as stated: the deformation-rename step does NOT
skip a missing bone — on a rig with no bones, the first correspondence
pair raises KeyError for `DEF-hips` instead of continuing. -/
theorem rewriter_missing_bone_counterexample :
    rename_rig_bones_to_match_vrm_model_vertex_groups [] [("hips", "Hips")] none =
      .error (.missingBone "DEF-hips") := rfl

/-- C2 (amended). In the post-generation rewriter, missing-bone handling is
not uniformly skip-and-continue: the deformation-rename step raises a
lookup error whenever the addressed `DEF-`/`ORG-` target of a pair is
absent (shown for the pair being processed), and the eye-control step
raises an unbound-local error when `master_eye.L` is absent; the grafting
step, by contrast, skips a bone whose grafting parent is missing and
leaves the rig unchanged. The deform-flag assertion remains the other
fatal condition of the rename step. -/
theorem rewriter_error_semantics (bone_name_mapping : Option (AL String)) :
    (∀ (rig : AL RigBone) (mName vName : String) (rest : List (String × String)),
      lookupAL rig (deformation_rename_target mName) = none →
      exOk (rename_rig_bones_to_match_vrm_model_vertex_groups rig
        ((mName, vName) :: rest) bone_name_mapping) = false) ∧
    (∀ (lenFn : Vec3 → Vec3 → ℚ) (mw : Mat4) (rig : AL RigBone),
      lookupAL rig "master_eye.L" = none →
      exOk (modify_rigify_rig_eyes_control_bones lenFn mw rig) = false) ∧
    (∀ (blender_major : ℕ) (rig : AL RigBone) (n : String) (vb : VrmBone) (pn : String),
      vb.parentName = some pn →
      lookupAL rig (effective_name bone_name_mapping pn) = none →
      lookupAL rig (effective_name bone_name_mapping n) = none →
      attach_step blender_major bone_name_mapping rig (n, vb) = rig) := by
  refine ⟨?_, ?_, ?_⟩
  · intro rig mName vName rest hlook
    unfold rename_rig_bones_to_match_vrm_model_vertex_groups rename_go
    unfold deformation_rename_target at hlook
    by_cases h : mName = "eye.L" ∨ mName = "eye.R"
    · rw [if_pos h] at hlook
      simp [h, hlook, exOk]
    · rw [if_neg h] at hlook
      simp [h, hlook, exOk]
  · intro lenFn mw rig hlook
    unfold modify_rigify_rig_eyes_control_bones
    simp [hlook, exOk]
  · intro blender_major rig n vb pn hpn hplook hnlook
    unfold attach_step
    simp [hnlook, hpn, hplook]

/-- Witness for C2 (amended) at concrete inputs: an empty rig makes the
rename and eye steps fail and the graft step a no-op. -/
theorem rewriter_error_semantics_witness :
    exOk (rename_rig_bones_to_match_vrm_model_vertex_groups []
        [("hips", "Hips")] none) = false ∧
      exOk (modify_rigify_rig_eyes_control_bones (fun _ _ => 0) idMat4 []) = false ∧
      attach_step 4 none [] ("Tail", ⟨⟨0,0,0⟩, ⟨0,0,1⟩, some "Spine"⟩) = [] :=
  ⟨(rewriter_error_semantics none).1 [] "hips" "Hips" [] rfl,
   (rewriter_error_semantics none).2.1 (fun _ _ => 0) idMat4 [] rfl,
   (rewriter_error_semantics none).2.2 4 [] "Tail" ⟨⟨0,0,0⟩, ⟨0,0,1⟩, some "Spine"⟩
     "Spine" rfl rfl rfl⟩

/-- C9. When the master eye control's world-space tail x equals its head x
(horizontally degenerate reference), the derived x position is exactly the
reference head's x coordinate. -/
theorem eye_degenerate_fallback (mHead mTail eHead : Vec3)
    (h : mTail.x = mHead.x) :
    eye_x_position mHead mTail eHead = mHead.x := by
  unfold eye_x_position eye_x_slope
  simp [h, sub_self]

/-- Witness for C9 at concrete reference points with equal head/tail x. -/
theorem eye_degenerate_fallback_witness :
    (⟨1, 5, 2⟩ : Vec3).x = (⟨1, 3, 0⟩ : Vec3).x ∧
      eye_x_position ⟨1, 3, 0⟩ ⟨1, 5, 2⟩ ⟨7, 9, 4⟩ = (⟨1, 3, 0⟩ : Vec3).x :=
  ⟨rfl, eye_degenerate_fallback ⟨1, 3, 0⟩ ⟨1, 5, 2⟩ ⟨7, 9, 4⟩ rfl⟩

/-! ## Two-phase vertex-group rename
(`update_vertex_groups_to_original_names`) -/

/-- Zero-padded six-digit decimal, modelling Python's `:06d` format. -/
def pad6 (n : ℕ) : String :=
  String.mk (List.replicate (6 - (Nat.repr n).length) '0') ++ Nat.repr n

/-- Temporary vertex-group name `_TMP_{hash(name) % 1000000:06d}`; Python's
process-deterministic string hash is supplied as the parameter `h`. -/
def tmp_name (h : String → ℕ) (s : String) : String :=
  "_TMP_" ++ pad6 (h s % 1000000)

/-- Host semantics of the assignment `vg.name = requested`: Blender
enforces per-object uniqueness of vertex-group names, substituting a fresh
suffixed name (`.001` style) when the requested name is already used by
another group of the same object. The suffix search lives in the host
(`BKE_object_defgroup_unique_name`, not part of this repository) and is
supplied as the parameter `fresh`, consulted only on a collision and
constrained in the theorems by its defining property: it returns a name
not currently in use. -/
def assignName (fresh : List String → String → String)
    (others : List String) (requested : String) : String :=
  if requested ∈ others then fresh others requested else requested

/-- Phase 1 of the rename, walking the vertex groups in order (`done` holds
the names already visited, `todo` the rest): an affected group requests its
hash-derived temporary name (recorded in `temp_mapping` under the REQUESTED
name together with the old name and final target, as in the source), and
the host assigns it subject to uniqueness. Returns the list of states after
each group, the final name list, and `temp_mapping`. -/
def phase1 (h : String → ℕ) (fresh : List String → String → String) (m : AL String) :
    List String → List String → AL (String × String) →
    List (List String) × List String × AL (String × String)
  | done, [], tm => ([], done, tm)
  | done, cur :: todo, tm =>
    match lookupAL m cur with
    | some tgt =>
      let assigned := assignName fresh (done ++ todo) (tmp_name h cur)
      let r := phase1 h fresh m (done ++ [assigned]) todo
        (dinsert tm (tmp_name h cur) (cur, tgt))
      ((done ++ assigned :: todo) :: r.1, r.2)
    | none =>
      let r := phase1 h fresh m (done ++ [cur]) todo tm
      ((done ++ cur :: todo) :: r.1, r.2)

/-- Phase 2 of the rename: a group whose current name is a recorded
temporary name requests its final target, assigned by the host subject to
uniqueness; other groups are left alone. Returns the states after each
group and the final name list. -/
def phase2 (fresh : List String → String → String) (tm : AL (String × String)) :
    List String → List String → List (List String) × List String
  | done, [] => ([], done)
  | done, cur :: todo =>
    match lookupAL tm cur with
    | some pr =>
      let assigned := assignName fresh (done ++ todo) pr.2
      let r := phase2 fresh tm (done ++ [assigned]) todo
      ((done ++ assigned :: todo) :: r.1, r.2)
    | none =>
      let r := phase2 fresh tm (done ++ [cur]) todo
      ((done ++ cur :: todo) :: r.1, r.2)

/-- The two-phase collision-avoiding rename of a mesh's vertex groups.
`none` models the `None` mapping (early return leaves names unchanged). -/
def update_vertex_groups_to_original_names (h : String → ℕ)
    (fresh : List String → String → String)
    (bone_name_mapping : Option (AL String)) (vgs : List String) : List String :=
  match bone_name_mapping with
  | none => vgs
  | some m =>
    let p1 := phase1 h fresh m [] vgs []
    (phase2 fresh p1.2.2 [] p1.2.1).2

/-- Every vertex-group name list observed during the two-phase rename: the
initial state, then the state after each phase-1 group and after each
phase-2 group, in order; the last entry is the final state. -/
def rename_states (h : String → ℕ) (fresh : List String → String → String)
    (m : AL String) (vgs : List String) : List (List String) :=
  let p1 := phase1 h fresh m [] vgs []
  vgs :: (p1.1 ++ (phase2 fresh p1.2.2 [] p1.2.1).1)

theorem assignName_not_mem (fresh : List String → String → String)
    (hfresh : ∀ taken base, fresh taken base ∉ taken)
    (others : List String) (requested : String) :
    assignName fresh others requested ∉ others := by
  unfold assignName
  by_cases hmem : requested ∈ others
  · rw [if_pos hmem]
    exact hfresh others requested
  · rw [if_neg hmem]
    exact hmem

theorem phase1_nodup (h : String → ℕ) (fresh : List String → String → String)
    (m : AL String) (hfresh : ∀ taken base, fresh taken base ∉ taken) :
    ∀ (todo done : List String) (tm : AL (String × String)),
      (done ++ todo).Nodup →
      (∀ s ∈ (phase1 h fresh m done todo tm).1, s.Nodup) ∧
        (phase1 h fresh m done todo tm).2.1.Nodup := by
  intro todo
  induction todo with
  | nil =>
    intro done tm hnd
    refine ⟨fun s hs => absurd hs (by simp [phase1]), ?_⟩
    simpa using hnd
  | cons cur todo ih =>
    intro done tm hnd
    obtain ⟨hcur, hmid⟩ := List.nodup_cons.mp (List.nodup_middle.mp hnd)
    cases hm : lookupAL m cur with
    | some tgt =>
      have hassigned : assignName fresh (done ++ todo) (tmp_name h cur) ∉ done ++ todo :=
        assignName_not_mem fresh hfresh _ _
      have hstate : (done ++ assignName fresh (done ++ todo) (tmp_name h cur) :: todo).Nodup :=
        List.nodup_middle.mpr (List.nodup_cons.mpr ⟨hassigned, hmid⟩)
      have hnd₁ :
          ((done ++ [assignName fresh (done ++ todo) (tmp_name h cur)]) ++ todo).Nodup := by
        rw [List.append_assoc]
        exact hstate
      obtain ⟨hstates, hres⟩ :=
        ih (done ++ [assignName fresh (done ++ todo) (tmp_name h cur)])
          (dinsert tm (tmp_name h cur) (cur, tgt)) hnd₁
      constructor
      · intro s hs
        simp only [phase1, hm] at hs
        rcases List.mem_cons.mp hs with heq | hs
        · rw [heq]
          exact hstate
        · exact hstates s hs
      · simp only [phase1, hm]
        exact hres
    | none =>
      have hnd₁ : ((done ++ [cur]) ++ todo).Nodup := by
        rw [List.append_assoc]
        exact hnd
      obtain ⟨hstates, hres⟩ := ih (done ++ [cur]) tm hnd₁
      constructor
      · intro s hs
        simp only [phase1, hm] at hs
        rcases List.mem_cons.mp hs with heq | hs
        · rw [heq]
          exact hnd
        · exact hstates s hs
      · simp only [phase1, hm]
        exact hres

theorem phase2_nodup (fresh : List String → String → String)
    (tm : AL (String × String)) (hfresh : ∀ taken base, fresh taken base ∉ taken) :
    ∀ (todo done : List String),
      (done ++ todo).Nodup →
      (∀ s ∈ (phase2 fresh tm done todo).1, s.Nodup) ∧
        (phase2 fresh tm done todo).2.Nodup := by
  intro todo
  induction todo with
  | nil =>
    intro done hnd
    refine ⟨fun s hs => absurd hs (by simp [phase2]), ?_⟩
    simpa using hnd
  | cons cur todo ih =>
    intro done hnd
    obtain ⟨hcur, hmid⟩ := List.nodup_cons.mp (List.nodup_middle.mp hnd)
    cases hm : lookupAL tm cur with
    | some pr =>
      have hassigned : assignName fresh (done ++ todo) pr.2 ∉ done ++ todo :=
        assignName_not_mem fresh hfresh _ _
      have hstate : (done ++ assignName fresh (done ++ todo) pr.2 :: todo).Nodup :=
        List.nodup_middle.mpr (List.nodup_cons.mpr ⟨hassigned, hmid⟩)
      have hnd₁ : ((done ++ [assignName fresh (done ++ todo) pr.2]) ++ todo).Nodup := by
        rw [List.append_assoc]
        exact hstate
      obtain ⟨hstates, hres⟩ := ih (done ++ [assignName fresh (done ++ todo) pr.2]) hnd₁
      constructor
      · intro s hs
        simp only [phase2, hm] at hs
        rcases List.mem_cons.mp hs with heq | hs
        · rw [heq]
          exact hstate
        · exact hstates s hs
      · simp only [phase2, hm]
        exact hres
    | none =>
      have hnd₁ : ((done ++ [cur]) ++ todo).Nodup := by
        rw [List.append_assoc]
        exact hnd
      obtain ⟨hstates, hres⟩ := ih (done ++ [cur]) hnd₁
      constructor
      · intro s hs
        simp only [phase2, hm] at hs
        rcases List.mem_cons.mp hs with heq | hs
        · rw [heq]
          exact hnd
        · exact hstates s hs
      · simp only [phase2, hm]
        exact hres

/-- C3. With duplicate-free initial vertex-group names, the two-phase
rename never produces two vertex groups bearing the same name at any
intermediate point — each assignment either keeps the current name or goes
through the host's unique-name enforcement, whose resolver returns a name
not in use — and the final names are pairwise distinct; in particular two
groups that would collide under naive renaming end with two distinct
final names. -/
theorem two_phase_rename_no_duplicates (h : String → ℕ)
    (fresh : List String → String → String) (m : AL String) (vgs : List String)
    (hfresh : ∀ taken base, fresh taken base ∉ taken)
    (hnd : vgs.Nodup) :
    (∀ s ∈ rename_states h fresh m vgs, s.Nodup) ∧
      (update_vertex_groups_to_original_names h fresh (some m) vgs).Nodup := by
  have h1 := phase1_nodup h fresh m hfresh vgs [] [] (by simpa using hnd)
  have h2 := phase2_nodup fresh (phase1 h fresh m [] vgs []).2.2 hfresh
    (phase1 h fresh m [] vgs []).2.1 [] (by simpa using h1.2)
  constructor
  · intro s hs
    simp only [rename_states] at hs
    rcases List.mem_cons.mp hs with heq | hs
    · rw [heq]
      exact hnd
    · rcases List.mem_append.mp hs with hs | hs
      · exact h1.1 s hs
      · exact h2.1 s hs
  · simpa [update_vertex_groups_to_original_names] using h2.2

/-- Concrete stand-in for the host's fresh-name search, usable in witness
runs: it returns a name strictly longer than every name in use, hence
never a duplicate. -/
def padFresh (taken : List String) (base : String) : String :=
  String.mk (List.replicate ((taken.map String.length).sum + (base.length + 1)) 'x')

theorem padFresh_not_mem : ∀ (taken : List String) (base : String),
    padFresh taken base ∉ taken := by
  intro taken base hmem
  have hlen : (padFresh taken base).length ∈ taken.map String.length :=
    List.mem_map_of_mem String.length hmem
  have hle : (padFresh taken base).length ≤ (taken.map String.length).sum :=
    List.le_sum_of_mem hlen
  have heq : (padFresh taken base).length =
      (taken.map String.length).sum + (base.length + 1) := by
    show (List.replicate ((taken.map String.length).sum + (base.length + 1)) 'x').length = _
    simp
  omega

/-- Witness for C3: the swap scenario (`A` ↦ `B`, `B` ↦ `A`, which collides
under naive renaming) with a concrete hash and resolver; every intermediate
state and the final state are duplicate-free. -/
theorem two_phase_rename_no_duplicates_witness :
    (∀ s ∈ rename_states (fun s => if s = "A" then 1 else 2) padFresh
        [("A", "B"), ("B", "A")] ["A", "B"], s.Nodup) ∧
      (update_vertex_groups_to_original_names (fun s => if s = "A" then 1 else 2) padFresh
        (some [("A", "B"), ("B", "A")]) ["A", "B"]).Nodup :=
  two_phase_rename_no_duplicates (fun s => if s = "A" then 1 else 2) padFresh
    [("A", "B"), ("B", "A")] ["A", "B"] padFresh_not_mem (by decide)

end VrmRigify
